import Mathlib

/-!
Shallow embedding of the runtime data structures in `src/generics.ts`:
the generic `Stack<T>`, the generic singly linked list `LinkedList<T>`
(with its incrementally maintained `_size` counter), and the
constrained generic function `ensureHasLength`.

A `LinkedListNode<T>` chain reachable from `head` is modelled by the
`List T` of its values in order; `undefined` head is the empty list.
A TypeScript `number` used as an index is modelled by `Int` (indices in
the source are compared with `< 0`, so negatives must be representable).
A thrown `Error`/`RangeError` is modelled by `Except.error` carrying the
message; methods that mutate `this` are modelled by returning the new
state (paired with the thrown error or the returned value, as needed).
-/

/-- `ensureHasLength<T extends HasLength>(arg: T)` (src/generics.ts:16-19):
throws `Error('Empty')` when `arg.length === 0`, otherwise returns `arg`.
The `HasLength` structural constraint is modelled by passing the `length`
accessor explicitly. -/
def ensureHasLength {α : Type} (length : α → Nat) (arg : α) : Except String α :=
  if length arg = 0 then Except.error "Empty" else Except.ok arg

/-- `class Stack<T>` (src/generics.ts:35-40): a wrapper around a private
array `items`, in array order (oldest first, top of the stack last). -/
structure Stack (T : Type) where
  items : List T

/-- `push(item)` — `this.items.push(item)` appends at the end. -/
def Stack.push {T : Type} (s : Stack T) (item : T) : Stack T :=
  ⟨s.items ++ [item]⟩

/-- `pop()` — `this.items.pop()` removes and returns the last element,
or `undefined` on an empty array. Returns the value and the new state. -/
def Stack.pop {T : Type} (s : Stack T) : Option T × Stack T :=
  (s.items.getLast?, ⟨s.items.dropLast⟩)

/-- `peek()` — `this.items[this.items.length - 1]`, `undefined` if empty. -/
def Stack.peek {T : Type} (s : Stack T) : Option T :=
  s.items.getLast?

/-- `class LinkedList<T>` (src/generics.ts:205-305): the chain of node
values reachable from `head`, plus the private counter `_size`.
The counter is kept as a separate field exactly as in the source; that it
always equals the chain length is a theorem, not part of the model. -/
structure LinkedList (T : Type) where
  head : List T
  _size : Nat

/-- `new LinkedList<T>()`: `head` is `undefined`, `_size` is `0`. -/
def LinkedList.empty {T : Type} : LinkedList T :=
  ⟨[], 0⟩

/-- The traversal in `add` (src/generics.ts:215-224): if the chain is
empty the new node becomes the head, otherwise walk `cur.next` to the
last node and hang the new node there. -/
def addChain {T : Type} (value : T) : List T → List T
  | [] => [value]
  | x :: xs => x :: addChain value xs

/-- `add(value)` (src/generics.ts:215-224): append at the end of the
chain and increment `_size`. -/
def LinkedList.add {T : Type} (s : LinkedList T) (value : T) : LinkedList T :=
  ⟨addChain value s.head, s._size + 1⟩

/-- `static fromArray(arr)` (src/generics.ts:209-213): start from a fresh
list and `add` each element of `arr` in order. -/
def LinkedList.fromArray {T : Type} (arr : List T) : LinkedList T :=
  arr.foldl LinkedList.add LinkedList.empty

/-- The pointer surgery in `insertAt` (src/generics.ts:228-237) on the
chain: at index `0` the new node is prepended; otherwise walk `index - 1`
steps from the head and splice the new node in after the node reached.
(The `[]` case with a positive index is never reached from `insertAt`,
whose bounds guard has already passed; the chain then has at least
`index` nodes.) -/
def insertAtChain {T : Type} (value : T) : Nat → List T → List T
  | 0, l => value :: l
  | _ + 1, [] => [value]
  | i + 1, x :: xs => x :: insertAtChain value i xs

/-- `insertAt(index, value)` (src/generics.ts:226-239): throws
`RangeError('index out of bounds')` when `index < 0 || index > this._size`
(leaving the list untouched, since the throw precedes any mutation);
otherwise splices the value in at `index` and increments `_size`. -/
def LinkedList.insertAt {T : Type} (s : LinkedList T) (index : Int) (value : T) :
    Except String Unit × LinkedList T :=
  if index < 0 ∨ (s._size : Int) < index then
    (Except.error "index out of bounds", s)
  else
    (Except.ok (), ⟨insertAtChain value index.toNat s.head, s._size + 1⟩)

/-- The pointer surgery in `removeAt` (src/generics.ts:243-252) on the
chain: at index `0` the head node is unlinked; otherwise walk `index - 1`
steps and unlink `cur.next` (which may be `undefined` on a chain shorter
than the guard suggests, in which case nothing is removed). Returns the
removed node's value, if any, and the new chain. -/
def removeAtChain {T : Type} : Nat → List T → Option T × List T
  | _, [] => (none, [])
  | 0, x :: xs => (some x, xs)
  | i + 1, x :: xs =>
    let p := removeAtChain i xs
    (p.1, x :: p.2)

/-- `removeAt(index)` (src/generics.ts:241-255): returns `undefined`
unchanged when `index < 0 || index >= this._size`; otherwise unlinks the
node at `index`, and decrements `_size` only `if (removed)`. -/
def LinkedList.removeAt {T : Type} (s : LinkedList T) (index : Int) :
    Option T × LinkedList T :=
  if index < 0 ∨ (s._size : Int) ≤ index then
    (none, s)
  else
    let p := removeAtChain index.toNat s.head
    (p.1, ⟨p.2, if p.1.isSome then s._size - 1 else s._size⟩)

/-- The `while (cur)` loop of `find` (src/generics.ts:257-264): return the
first value for which the predicate holds, `undefined` when none does. -/
def findChain {T : Type} (predicate : T → Bool) : List T → Option T
  | [] => none
  | x :: xs => if predicate x then some x else findChain predicate xs

/-- `find(predicate)` (src/generics.ts:257-264). -/
def LinkedList.find {T : Type} (s : LinkedList T) (predicate : T → Bool) : Option T :=
  findChain predicate s.head

/-- `toArray()` (src/generics.ts:266-274): push each value in chain order
into a fresh array — i.e. the list of values of the chain, which is the
chain itself in this model. -/
def LinkedList.toArray {T : Type} (s : LinkedList T) : List T :=
  s.head

/-- `size()` (src/generics.ts:276-278): the stored counter. -/
def LinkedList.size {T : Type} (s : LinkedList T) : Nat :=
  s._size

/-- `clear()` (src/generics.ts:280-283): `head = undefined; _size = 0`. -/
def LinkedList.clear {T : Type} (_s : LinkedList T) : LinkedList T :=
  ⟨[], 0⟩

/-- States of a `LinkedList` produced by some finite sequence of the
public operations, starting from `new LinkedList()` or `fromArray`.
`insertAt` and `removeAt` are included at arbitrary indices (out-of-range
calls leave the state unchanged). -/
inductive LinkedList.Reachable {T : Type} : LinkedList T → Prop
  | empty : Reachable LinkedList.empty
  | fromArray (arr : List T) : Reachable (LinkedList.fromArray arr)
  | add {s : LinkedList T} (v : T) : Reachable s → Reachable (s.add v)
  | insertAt {s : LinkedList T} (i : Int) (v : T) :
      Reachable s → Reachable (s.insertAt i v).2
  | removeAt {s : LinkedList T} (i : Int) :
      Reachable s → Reachable (s.removeAt i).2
  | clear {s : LinkedList T} : Reachable s → Reachable s.clear

/-! ### Basic lemmas about the chain operations -/

theorem addChain_eq {T : Type} (v : T) (l : List T) :
    addChain v l = l ++ [v] := by
  induction l with
  | nil => rfl
  | cons x xs ih => simp [addChain, ih]

theorem insertAtChain_eq {T : Type} (v : T) (i : Nat) (l : List T) :
    insertAtChain v i l = l.take i ++ v :: l.drop i := by
  induction i generalizing l with
  | zero => cases l <;> rfl
  | succ i ih =>
    cases l with
    | nil => rfl
    | cons x xs => simp [insertAtChain, ih]

theorem insertAtChain_length {T : Type} (v : T) (i : Nat) (l : List T) :
    (insertAtChain v i l).length = l.length + 1 := by
  induction i generalizing l with
  | zero => cases l <;> rfl
  | succ i ih =>
    cases l with
    | nil => rfl
    | cons x xs => simp [insertAtChain, ih]

theorem removeAtChain_eq {T : Type} (i : Nat) (l : List T) (h : i < l.length) :
    removeAtChain i l = (l[i]?, l.take i ++ l.drop (i + 1)) := by
  induction i generalizing l with
  | zero =>
    cases l with
    | nil => simp at h
    | cons x xs => simp [removeAtChain]
  | succ i ih =>
    cases l with
    | nil => simp at h
    | cons x xs =>
      have h' : i < xs.length := by simpa using h
      simp [removeAtChain, ih xs h']

theorem findChain_eq_none {T : Type} (p : T → Bool) (l : List T) :
    findChain p l = none ↔ ∀ x ∈ l, p x = false := by
  induction l with
  | nil => simp [findChain]
  | cons x xs ih =>
    by_cases hx : p x
    · simp [findChain, hx]
    · simp only [Bool.not_eq_true] at hx
      simp [findChain, hx, ih]

theorem findChain_eq_some {T : Type} (p : T → Bool) (l : List T) (x : T)
    (h : findChain p l = some x) :
    p x = true ∧ ∃ l₁ l₂, l = l₁ ++ x :: l₂ ∧ ∀ y ∈ l₁, p y = false := by
  induction l with
  | nil => simp [findChain] at h
  | cons a as ih =>
    by_cases ha : p a
    · simp [findChain, ha] at h
      subst h
      exact ⟨ha, [], as, rfl, by simp⟩
    · simp only [Bool.not_eq_true] at ha
      simp [findChain, ha] at h
      obtain ⟨hp, l₁, l₂, heq, hall⟩ := ih h
      refine ⟨hp, a :: l₁, l₂, by simp [heq], ?_⟩
      intro y hy
      rcases List.mem_cons.mp hy with hy | hy
      · subst hy; exact ha
      · exact hall y hy

theorem foldl_add_head {T : Type} (arr : List T) (s : LinkedList T) :
    (arr.foldl LinkedList.add s).head = s.head ++ arr ∧
    (arr.foldl LinkedList.add s)._size = s._size + arr.length := by
  induction arr generalizing s with
  | nil => simp
  | cons v vs ih =>
    have := ih (s.add v)
    simp only [List.foldl_cons] at *
    constructor
    · rw [this.1]
      simp [LinkedList.add, addChain_eq]
    · rw [this.2]
      simp [LinkedList.add]
      omega

theorem fromArray_head {T : Type} (arr : List T) :
    (LinkedList.fromArray arr).head = arr ∧ (LinkedList.fromArray arr)._size = arr.length := by
  have := foldl_add_head arr (LinkedList.empty (T := T))
  simpa [LinkedList.fromArray, LinkedList.empty] using this

/-! ### Claim theorems -/

/-- C1: for every `LinkedList` holding `n` elements and every index `i`
with `0 ≤ i ≤ n`, `insertAt(i, v)` succeeds, places `v` at position `i`
(so `toArray()` afterwards is the first `i` old elements, then `v`, then
the rest), and increases `size()` by exactly 1; in particular after
appends of 1, 2, 3 followed by `insertAt(2, 99)`, `toArray()` yields
`[1, 2, 99, 3]`. -/
theorem LinkedList.insertAt_valid_spec {T : Type} (s : LinkedList T) (i : Int) (v : T)
    (hwf : s._size = s.toArray.length) (h0 : 0 ≤ i) (hn : i ≤ (s.toArray.length : Int)) :
    (s.insertAt i v).1 = Except.ok () ∧
    (s.insertAt i v).2.toArray =
      s.toArray.take i.toNat ++ v :: s.toArray.drop i.toNat ∧
    (s.insertAt i v).2.size = s.size + 1 ∧
    (((((LinkedList.empty : LinkedList Int).add 1).add 2).add 3).insertAt 2 99).2.toArray
      = [1, 2, 99, 3] := by
  simp only [LinkedList.toArray] at hwf hn
  have hguard : ¬(i < 0 ∨ (s._size : Int) < i) := by
    push_neg
    omega
  refine ⟨?_, ?_, ?_, ?_⟩
  · simp [LinkedList.insertAt, hguard]
  · simp [LinkedList.insertAt, hguard, LinkedList.toArray, insertAtChain_eq]
  · simp [LinkedList.insertAt, hguard, LinkedList.size]
  · rfl

/-- C1 witness: instantiation at the list built from `[1, 2, 3]`,
index 2, value 99. -/
theorem LinkedList.insertAt_valid_witness :
    ((LinkedList.fromArray ([1, 2, 3] : List Int)).insertAt 2 99).2.size
      = (LinkedList.fromArray ([1, 2, 3] : List Int)).size + 1 :=
  (LinkedList.insertAt_valid_spec (LinkedList.fromArray [1, 2, 3]) 2 99
    (by decide) (by decide) (by decide)).2.2.1

/-- C2: for every `LinkedList` holding `n` elements and every index `i`
with `0 ≤ i < n`, `removeAt(i)` returns the element at position `i` and
removes exactly that element, leaving the others in their original
order; in particular `removeAt(2)` on `[1, 2, 99, 3]` returns 99 and
leaves `[1, 2, 3]`. -/
theorem LinkedList.removeAt_valid_spec {T : Type} (s : LinkedList T) (i : Int)
    (hwf : s._size = s.toArray.length) (h0 : 0 ≤ i) (hn : i < (s.toArray.length : Int)) :
    (∃ h : i.toNat < s.toArray.length,
      (s.removeAt i).1 = some (s.toArray.get ⟨i.toNat, h⟩)) ∧
    (s.removeAt i).2.toArray = s.toArray.take i.toNat ++ s.toArray.drop (i.toNat + 1) ∧
    ((LinkedList.fromArray ([1, 2, 99, 3] : List Int)).removeAt 2).1 = some 99 ∧
    ((LinkedList.fromArray ([1, 2, 99, 3] : List Int)).removeAt 2).2.toArray
      = [1, 2, 3] := by
  simp only [LinkedList.toArray] at hwf hn ⊢
  have hguard : ¬(i < 0 ∨ (s._size : Int) ≤ i) := by
    push_neg
    omega
  have hlt : i.toNat < s.head.length := by omega
  refine ⟨⟨hlt, ?_⟩, ?_, ?_, ?_⟩
  · simp [LinkedList.removeAt, hguard, removeAtChain_eq i.toNat s.head hlt,
      List.getElem?_eq_getElem hlt]
  · simp [LinkedList.removeAt, hguard, removeAtChain_eq i.toNat s.head hlt]
  · rfl
  · rfl

/-- C2 witness: instantiation at the list built from `[1, 2, 99, 3]`
and index 2. -/
theorem LinkedList.removeAt_valid_witness :
    ((LinkedList.fromArray ([1, 2, 99, 3] : List Int)).removeAt 2).2.toArray
      = [1, 2, 3] :=
  (LinkedList.removeAt_valid_spec (LinkedList.fromArray [1, 2, 99, 3]) 2
    (by decide) (by decide) (by decide)).2.2.2

/-- C3: `insertAt(i, v)` raises the out-of-range error exactly when
`i < 0` or `i > n` (a hard error, modelled as `Except.error`, not an
absence marker), and for such an out-of-range `i` the list's contents
and size are unchanged by the failed call. -/
theorem LinkedList.insertAt_oob_spec {T : Type} (s : LinkedList T) (i : Int) (v : T)
    (hwf : s._size = s.toArray.length) :
    ((s.insertAt i v).1 = Except.error "index out of bounds" ↔
      i < 0 ∨ (s.toArray.length : Int) < i) ∧
    ((i < 0 ∨ (s.toArray.length : Int) < i) → (s.insertAt i v).2 = s) := by
  simp only [LinkedList.toArray] at hwf ⊢
  rw [← hwf]
  by_cases hc : i < 0 ∨ (s._size : Int) < i
  · simp [LinkedList.insertAt, hc]
  · simp [LinkedList.insertAt, hc]

/-- C3 witness: instantiation at the list built from `[1, 2, 3]` with the
out-of-range index 5. -/
theorem LinkedList.insertAt_oob_witness :
    ((LinkedList.fromArray ([1, 2, 3] : List Int)).insertAt 5 7).2
      = LinkedList.fromArray [1, 2, 3] :=
  (LinkedList.insertAt_oob_spec (LinkedList.fromArray [1, 2, 3]) 5 7 (by decide)).2
    (by decide)

/-- C4: for every index `i` outside `[0, n)`, `removeAt(i)` returns the
absence marker (`none`, for `undefined`) rather than erroring, and does
not change the list's contents or size. -/
theorem LinkedList.removeAt_oob_spec {T : Type} (s : LinkedList T) (i : Int)
    (hwf : s._size = s.toArray.length)
    (h : i < 0 ∨ (s.toArray.length : Int) ≤ i) :
    s.removeAt i = (none, s) := by
  simp only [LinkedList.toArray] at hwf h
  have hc : i < 0 ∨ (s._size : Int) ≤ i := by omega
  simp [LinkedList.removeAt, hc]

/-- C4 witness: instantiation at the list built from `[1, 2, 3]` with the
out-of-range index 3. -/
theorem LinkedList.removeAt_oob_witness :
    (LinkedList.fromArray ([1, 2, 3] : List Int)).removeAt 3
      = (none, LinkedList.fromArray [1, 2, 3]) :=
  LinkedList.removeAt_oob_spec (LinkedList.fromArray [1, 2, 3]) 3
    (by decide) (by decide)

/-- C5: `add` appends its value at the end of the sequence: after
`add(v)` the snapshot `toArray()` equals the previous `toArray()` with
`v` appended; consequently `fromArray(arr).toArray()` equals `arr`. -/
theorem LinkedList.add_append_spec {T : Type} (s : LinkedList T) (v : T) (arr : List T) :
    (s.add v).toArray = s.toArray ++ [v] ∧
    (LinkedList.fromArray arr).toArray = arr := by
  constructor
  · simp [LinkedList.add, LinkedList.toArray, addChain_eq]
  · simp [LinkedList.toArray, (fromArray_head arr).1]

/-- C5 witness: instantiation at the list built from `[10, 20]` with the
appended value 30. -/
theorem LinkedList.add_append_witness :
    ((LinkedList.fromArray ([10, 20] : List Int)).add 30).toArray = [10, 20, 30] := by
  have h := LinkedList.add_append_spec (LinkedList.fromArray ([10, 20] : List Int)) 30
    ([10, 20] : List Int)
  rw [h.1, h.2]
  rfl

/-- C6: `find(p)` returns the first element in sequence order from the
head satisfying `p`, and `none` (for `undefined`) when no element
satisfies `p`; in particular `find(v => v > 50)` on `[1, 2, 99, 3]`
returns 99. -/
theorem LinkedList.find_first_spec {T : Type} (s : LinkedList T) (p : T → Bool) :
    (s.find p = none ↔ ∀ x ∈ s.toArray, p x = false) ∧
    (∀ x : T, s.find p = some x →
      p x = true ∧ ∃ l₁ l₂, s.toArray = l₁ ++ x :: l₂ ∧ ∀ y ∈ l₁, p y = false) ∧
    (LinkedList.fromArray ([1, 2, 99, 3] : List Int)).find (fun v => decide (50 < v))
      = some 99 := by
  refine ⟨findChain_eq_none p s.head, ?_, ?_⟩
  · intro x hx
    exact findChain_eq_some p s.head x hx
  · rfl

/-- C6 witness: instantiation at the list built from `[1, 2]` with a
predicate no element satisfies. -/
theorem LinkedList.find_first_witness :
    (LinkedList.fromArray ([1, 2] : List Int)).find (fun v => decide (50 < v)) = none :=
  (LinkedList.find_first_spec (LinkedList.fromArray ([1, 2] : List Int))
    (fun v => decide (50 < v))).1.mpr (by decide)

/-- C7: after `clear()` the list is empty regardless of prior contents:
`size()` returns 0 and `toArray()` returns the empty sequence. -/
theorem LinkedList.clear_spec {T : Type} (s : LinkedList T) :
    s.clear.size = 0 ∧ s.clear.toArray = [] :=
  ⟨rfl, rfl⟩

/-- C7 witness: instantiation at the list built from `[1, 2, 3]`. -/
theorem LinkedList.clear_witness :
    (LinkedList.fromArray ([1, 2, 3] : List Int)).clear.size = 0 :=
  (LinkedList.clear_spec (LinkedList.fromArray ([1, 2, 3] : List Int))).1

/-- C8: `ensureHasLength(arg)` fails with the empty-input validation
error (`Error('Empty')`) exactly when `arg.length` equals 0, and
otherwise returns its argument unchanged. -/
theorem ensureHasLength_spec {α : Type} (length : α → Nat) (arg : α) :
    (ensureHasLength length arg = Except.error "Empty" ↔ length arg = 0) ∧
    (length arg ≠ 0 → ensureHasLength length arg = Except.ok arg) := by
  by_cases h : length arg = 0 <;> simp [ensureHasLength, h]

/-- C8 witness: instantiation at the nonempty list `[1, 2, 3]` with its
`length`. -/
theorem ensureHasLength_witness :
    ensureHasLength List.length ([1, 2, 3] : List Nat) = Except.ok [1, 2, 3] :=
  (ensureHasLength_spec List.length ([1, 2, 3] : List Nat)).2 (by decide)

/-- C9: invariant of `LinkedList`: after any finite sequence of the
public operations, the incrementally maintained counter returned by
`size()` equals the number of elements actually reachable from the head,
i.e. `size() = toArray().length`. -/
theorem LinkedList.size_eq_toArray_length {T : Type} (s : LinkedList T)
    (h : s.Reachable) : s.size = s.toArray.length := by
  simp only [LinkedList.size, LinkedList.toArray]
  induction h with
  | empty => rfl
  | fromArray arr =>
    rw [(fromArray_head arr).1, (fromArray_head arr).2]
  | add v _ ih =>
    simp [LinkedList.add, addChain_eq, ih]
  | insertAt i v _ ih =>
    rename_i s' _
    by_cases hc : i < 0 ∨ (s'._size : Int) < i
    · simp only [LinkedList.insertAt, if_pos hc]
      exact ih
    · simp only [LinkedList.insertAt, if_neg hc]
      rw [insertAtChain_length]
      omega
  | removeAt i _ ih =>
    rename_i s' _
    by_cases hc : i < 0 ∨ (s'._size : Int) ≤ i
    · simp only [LinkedList.removeAt, if_pos hc]
      exact ih
    · push_neg at hc
      have hlt : i.toNat < s'.head.length := by omega
      have hr := removeAtChain_eq i.toNat s'.head hlt
      have hcond : ¬(i < 0 ∨ (s'._size : Int) ≤ i) := by push_neg; omega
      simp only [LinkedList.removeAt, if_neg hcond, hr, List.getElem?_eq_getElem hlt,
        Option.isSome_some, if_pos]
      simp only [List.length_append, List.length_take, List.length_drop]
      omega
  | clear => rfl

/-- C9 witness: instantiation at the reachable state built by
`fromArray([1, 2, 3])`. -/
theorem LinkedList.size_eq_toArray_length_witness :
    (LinkedList.fromArray ([1, 2, 3] : List Int)).size
      = (LinkedList.fromArray ([1, 2, 3] : List Int)).toArray.length :=
  LinkedList.size_eq_toArray_length (LinkedList.fromArray [1, 2, 3])
    (LinkedList.Reachable.fromArray [1, 2, 3])

/-- C10: `pop()` and `peek()` on an empty `Stack` return the absence
marker `undefined` (modelled as `none`) rather than raising an error;
and for every stack state and value `x`, `push(x)` followed by `pop()`
returns `x` and restores the stack to its state before the push. -/
theorem Stack.pop_peek_spec {T : Type} (s : Stack T) (x : T) :
    (Stack.pop (⟨[]⟩ : Stack T) = (none, (⟨[]⟩ : Stack T))) ∧
    (Stack.peek (⟨[]⟩ : Stack T) = none) ∧
    (s.push x).pop = (some x, s) := by
  refine ⟨rfl, rfl, ?_⟩
  simp [Stack.push, Stack.pop]

/-- C10 witness: instantiation at the stack holding `[10]` with the
pushed value 20. -/
theorem Stack.pop_peek_witness :
    (Stack.push (⟨[10]⟩ : Stack Int) 20).pop = (some 20, (⟨[10]⟩ : Stack Int)) :=
  (Stack.pop_peek_spec (⟨[10]⟩ : Stack Int) 20).2.2
